import Mathlib

/-!
Verification of the fuzzy water-quality simulator (`fuzzy.py`, `evaluation.py`).

The Python code is shallowly embedded: machine floats become exact rationals
(`ℚ`), the membership dictionaries keyed by linguistic-term strings become
total functions out of finite enumerations of the terms, and the fallible
categorical evaluator returns an `Option`.  `round(x, 2)` is modelled by
`round2` below (Python's tie-to-even behaviour differs from Mathlib's `round`
only on exact half-way ties, which none of the verified computations hit).
-/

/-- Model of Python `round(q, 2)`: round `q` to two decimal places. -/
def round2 (q : ℚ) : ℚ := ((round (q * 100) : ℤ) : ℚ) / 100

/-- `fungsi_segitiga(x, [a, b, c])` from `fuzzy.py`: scalar triangular
membership function, branch-for-branch.  The Python branch ladder is
`x <= a or x >= c → 0`, `a < x <= b → (x-a)/(b-a)`, `b < x < c → (c-x)/(c-b)`;
for parameters with `a ≤ b ≤ c` the final branch is the `else` case. -/
def fungsi_segitiga (x a b c : ℚ) : ℚ :=
  if x ≤ a ∨ c ≤ x then 0
  else if x ≤ b then (x - a) / (b - a)
  else (c - x) / (c - b)

/-- `fungsi_trapezium(x, [a, b, c, d])` from `fuzzy.py`: scalar trapezoidal
membership function, branch-for-branch.  The Python ladder is
`x <= a or x >= d → 0`, `a < x <= b → (x-a)/(b-a)`, `b < x <= c → 1`,
`c < x < d → (d-x)/(d-c)`; for `a ≤ b ≤ c ≤ d` the final branch is the
`else` case. -/
def fungsi_trapezium (x a b c d : ℚ) : ℚ :=
  if x ≤ a ∨ d ≤ x then 0
  else if x ≤ b then (x - a) / (b - a)
  else if x ≤ c then 1
  else (d - x) / (d - c)

/-- Linguistic terms of the pH variable (`PH_RANGES` keys). -/
inductive PHTerm : Type
  | Asam
  | Optimal
  | Basa
deriving DecidableEq, Fintype

/-- Linguistic terms of the TDS variable (`TDS_RANGES` keys). -/
inductive TDSTerm : Type
  | SangatRendah
  | Rendah
  | Optimal
  | Tinggi
deriving DecidableEq, Fintype

/-- Linguistic terms of the temperature variable (`TEMPERATURE_RANGES` keys). -/
inductive TempTerm : Type
  | Dingin
  | Optimal
  | Panas
deriving DecidableEq, Fintype

/-- `ph_membership(x)`: membership degree of `x` in each pH fuzzy set, with
the `PH_RANGES` parameters. -/
def ph_membership (x : ℚ) : PHTerm → ℚ
  | .Asam => fungsi_trapezium x 0 0 6 7
  | .Optimal => fungsi_segitiga x 6 7 8
  | .Basa => fungsi_trapezium x 7 8 14 14

/-- `tds_membership(x)`: membership degree of `x` in each TDS fuzzy set, with
the `TDS_RANGES` parameters. -/
def tds_membership (x : ℚ) : TDSTerm → ℚ
  | .SangatRendah => fungsi_trapezium x 0 0 400 600
  | .Rendah => fungsi_trapezium x 400 600 900 1100
  | .Optimal => fungsi_trapezium x 900 1100 1800 2000
  | .Tinggi => fungsi_trapezium x 1800 2000 3000 3000

/-- `temp_membership(x)`: membership degree of `x` in each temperature fuzzy
set, with the `TEMPERATURE_RANGES` parameters. -/
def temp_membership (x : ℚ) : TempTerm → ℚ
  | .Dingin => fungsi_trapezium x 0 0 23 25
  | .Optimal => fungsi_segitiga x 24 27 30
  | .Panas => fungsi_trapezium x 28 30 45 45

/-- One entry of the `rules` table inside `fuzzy_rules`:
`(TDS term, pH term, temperature term, output level)`. -/
structure Rule : Type where
  tds : TDSTerm
  ph : PHTerm
  temp : TempTerm
  out : ℕ
deriving DecidableEq

/-- The 36-entry rule table of `fuzzy_rules`, in source order. -/
def ruleList : List Rule :=
  [⟨.SangatRendah, .Asam, .Dingin, 1⟩,
   ⟨.SangatRendah, .Asam, .Optimal, 1⟩,
   ⟨.SangatRendah, .Asam, .Panas, 1⟩,
   ⟨.SangatRendah, .Optimal, .Dingin, 1⟩,
   ⟨.SangatRendah, .Optimal, .Optimal, 1⟩,
   ⟨.SangatRendah, .Optimal, .Panas, 1⟩,
   ⟨.SangatRendah, .Basa, .Dingin, 1⟩,
   ⟨.SangatRendah, .Basa, .Optimal, 1⟩,
   ⟨.SangatRendah, .Basa, .Panas, 1⟩,
   ⟨.Rendah, .Asam, .Dingin, 1⟩,
   ⟨.Rendah, .Asam, .Optimal, 1⟩,
   ⟨.Rendah, .Asam, .Panas, 1⟩,
   ⟨.Rendah, .Optimal, .Dingin, 1⟩,
   ⟨.Rendah, .Optimal, .Optimal, 1⟩,
   ⟨.Rendah, .Optimal, .Panas, 1⟩,
   ⟨.Rendah, .Basa, .Dingin, 1⟩,
   ⟨.Rendah, .Basa, .Optimal, 1⟩,
   ⟨.Rendah, .Basa, .Panas, 1⟩,
   ⟨.Optimal, .Asam, .Dingin, 1⟩,
   ⟨.Optimal, .Asam, .Optimal, 1⟩,
   ⟨.Optimal, .Asam, .Panas, 1⟩,
   ⟨.Optimal, .Optimal, .Dingin, 1⟩,
   ⟨.Optimal, .Optimal, .Optimal, 2⟩,
   ⟨.Optimal, .Optimal, .Panas, 1⟩,
   ⟨.Optimal, .Basa, .Dingin, 1⟩,
   ⟨.Optimal, .Basa, .Optimal, 1⟩,
   ⟨.Optimal, .Basa, .Panas, 1⟩,
   ⟨.Tinggi, .Asam, .Dingin, 1⟩,
   ⟨.Tinggi, .Asam, .Optimal, 1⟩,
   ⟨.Tinggi, .Asam, .Panas, 1⟩,
   ⟨.Tinggi, .Optimal, .Dingin, 1⟩,
   ⟨.Tinggi, .Optimal, .Optimal, 1⟩,
   ⟨.Tinggi, .Optimal, .Panas, 1⟩,
   ⟨.Tinggi, .Basa, .Dingin, 1⟩,
   ⟨.Tinggi, .Basa, .Optimal, 1⟩,
   ⟨.Tinggi, .Basa, .Panas, 1⟩]

/-- `fuzzy_rules(x1, x2, x3)` from `fuzzy.py`.  The membership dictionaries
always contain every term of their variable, so the Python key-presence guard
`tds in x1 and ph in x2 and suhu in x3` always passes and is modelled by total
functions; the empty-`results` sentinel `{firing_strength: 0, output: 0}` is
kept.  Weights: TDS 0.6, pH 0.2, temperature 0.2. -/
def fuzzy_rules (x1 : TDSTerm → ℚ) (x2 : PHTerm → ℚ) (x3 : TempTerm → ℚ) :
    List (ℚ × ℚ) :=
  let results := ruleList.map fun r =>
    (min (min (x1 r.tds * 0.6) (x2 r.ph * 0.2)) (x3 r.temp * 0.2), (r.out : ℚ))
  if results.isEmpty then [(0, 0)] else results

/-- `defuzzification(rules)` from `fuzzy.py`: weighted average of outputs by
firing strength, `0` when the strengths sum to `0`, rounded to 2 decimals. -/
def defuzzification (rules : List (ℚ × ℚ)) : ℚ :=
  let numerator := (rules.map fun r => r.1 * r.2).sum
  let denominator := (rules.map fun r => r.1).sum
  if denominator = 0 then 0 else round2 (numerator / denominator)

/-- One observation row, with the keys read by `get_z_result`. -/
structure Row : Type where
  tds : ℚ
  ph : ℚ
  water_temp : ℚ

/-- `get_z_result(row)` from `fuzzy.py`: fuzzify each variable, fire the rule
base, defuzzify. -/
def get_z_result (row : Row) : ℚ :=
  defuzzification (fuzzy_rules (tds_membership row.tds) (ph_membership row.ph)
    (temp_membership row.water_temp))

/-- The label normalisation in `perform_categorical_evaluation`
(`str(value).strip().lower()`), on the character list of the label: drop
leading and trailing whitespace, then lowercase every character. -/
def norm_label (s : List Char) : List Char :=
  (((s.dropWhile Char.isWhitespace).reverse.dropWhile Char.isWhitespace).reverse).map
    Char.toLower

/-- The confusion-matrix counters of `perform_categorical_evaluation`. -/
structure ConfusionMatrix : Type where
  tp : ℕ
  tn : ℕ
  fp : ℕ
  fn : ℕ
deriving DecidableEq

/-- The metrics dictionary of `perform_categorical_evaluation`
(`Akurasi`, `Presisi`, `Recall`). -/
structure EvalMetrics : Type where
  akurasi : ℚ
  presisi : ℚ
  sensitivity : ℚ
deriving DecidableEq

/-- The loop body of `perform_categorical_evaluation`: classify one
`(actual, predicted)` row against the positive class `"optimal"` and bump the
matching counter. -/
def count_row (cm : ConfusionMatrix) (row : List Char × List Char) : ConfusionMatrix :=
  let actual_value := norm_label row.1
  let predict_value := norm_label row.2
  let is_actual_positive := actual_value = "optimal".toList
  let is_predict_positive := predict_value = "optimal".toList
  if is_predict_positive ∧ is_actual_positive then { cm with tp := cm.tp + 1 }
  else if ¬is_predict_positive ∧ ¬is_actual_positive then { cm with tn := cm.tn + 1 }
  else if is_predict_positive ∧ ¬is_actual_positive then { cm with fp := cm.fp + 1 }
  else { cm with fn := cm.fn + 1 }

/-- `perform_categorical_evaluation(df, actual_col, predict_col)` from
`evaluation.py`, on the list of `(actual, predicted)` label pairs of the
dataframe.  Returns `none` for the `"No valid data"` error dictionary. -/
def perform_categorical_evaluation (rows : List (List Char × List Char)) :
    Option (ConfusionMatrix × EvalMetrics) :=
  let cm := rows.foldl count_row ⟨0, 0, 0, 0⟩
  let total_data := cm.tp + cm.tn + cm.fp + cm.fn
  if total_data = 0 then none
  else
    let accuracy := ((cm.tp + cm.tn : ℕ) : ℚ) / (total_data : ℚ)
    let prec := if 0 < cm.tp + cm.fp then (cm.tp : ℚ) / ((cm.tp + cm.fp : ℕ) : ℚ) else 0
    let rcl := if 0 < cm.tp + cm.fn then (cm.tp : ℚ) / ((cm.tp + cm.fn : ℕ) : ℚ) else 0
    some (cm, ⟨accuracy, prec, rcl⟩)

/-! ### Helper lemmas -/

/-- The rule table is non-empty, so the empty-`results` sentinel of
`fuzzy_rules` never fires: the result is exactly the mapped rule table. -/
lemma fuzzy_rules_eq_map (x1 : TDSTerm → ℚ) (x2 : PHTerm → ℚ) (x3 : TempTerm → ℚ) :
    fuzzy_rules x1 x2 x3 = ruleList.map fun r =>
      (min (min (x1 r.tds * 0.6) (x2 r.ph * 0.2)) (x3 r.temp * 0.2), (r.out : ℚ)) := rfl

/-- The value of the scalar trapezoidal membership function always lies in
`[0, 1]`: the branch guards themselves force each quotient into the unit
interval, for arbitrary parameters. -/
lemma fungsi_trapezium_mem (x a b c d : ℚ) :
    0 ≤ fungsi_trapezium x a b c d ∧ fungsi_trapezium x a b c d ≤ 1 := by
  unfold fungsi_trapezium
  split_ifs with h1 h2 h3
  · exact ⟨le_refl 0, zero_le_one⟩
  · push_neg at h1
    refine ⟨div_nonneg (by linarith [h1.1]) (by linarith [h1.1]), ?_⟩
    rw [div_le_one (by linarith [h1.1])]
    linarith
  · exact ⟨zero_le_one, le_refl 1⟩
  · push_neg at h1 h2 h3
    refine ⟨div_nonneg (by linarith [h1.2]) (by linarith [h1.2]), ?_⟩
    rw [div_le_one (by linarith [h1.2])]
    linarith

/-- The value of the scalar triangular membership function always lies in
`[0, 1]`, for arbitrary parameters. -/
lemma fungsi_segitiga_mem (x a b c : ℚ) :
    0 ≤ fungsi_segitiga x a b c ∧ fungsi_segitiga x a b c ≤ 1 := by
  unfold fungsi_segitiga
  split_ifs with h1 h2
  · exact ⟨le_refl 0, zero_le_one⟩
  · push_neg at h1
    refine ⟨div_nonneg (by linarith [h1.1]) (by linarith [h1.1]), ?_⟩
    rw [div_le_one (by linarith [h1.1])]
    linarith
  · push_neg at h1 h2
    refine ⟨div_nonneg (by linarith [h1.2]) (by linarith [h1.2]), ?_⟩
    rw [div_le_one (by linarith [h1.2])]
    linarith

/-- Every pH membership degree is non-negative. -/
lemma ph_membership_nonneg (x : ℚ) (t : PHTerm) : 0 ≤ ph_membership x t := by
  cases t
  · exact (fungsi_trapezium_mem x 0 0 6 7).1
  · exact (fungsi_segitiga_mem x 6 7 8).1
  · exact (fungsi_trapezium_mem x 7 8 14 14).1

/-- Every TDS membership degree is non-negative. -/
lemma tds_membership_nonneg (x : ℚ) (t : TDSTerm) : 0 ≤ tds_membership x t := by
  cases t
  · exact (fungsi_trapezium_mem x 0 0 400 600).1
  · exact (fungsi_trapezium_mem x 400 600 900 1100).1
  · exact (fungsi_trapezium_mem x 900 1100 1800 2000).1
  · exact (fungsi_trapezium_mem x 1800 2000 3000 3000).1

/-- Every temperature membership degree is non-negative. -/
lemma temp_membership_nonneg (x : ℚ) (t : TempTerm) : 0 ≤ temp_membership x t := by
  cases t
  · exact (fungsi_trapezium_mem x 0 0 23 25).1
  · exact (fungsi_segitiga_mem x 24 27 30).1
  · exact (fungsi_trapezium_mem x 28 30 45 45).1

/-- Rounding to 2 decimals keeps a value of `[1, 2]` inside `[1, 2]`. -/
lemma round2_bounds (q : ℚ) (h1 : 1 ≤ q) (h2 : q ≤ 2) :
    1 ≤ round2 q ∧ round2 q ≤ 2 := by
  have hl : (100 : ℤ) ≤ round (q * 100) := by
    rw [round_eq]
    refine Int.le_floor.mpr ?_
    push_cast
    linarith
  have hu : round (q * 100) ≤ (200 : ℤ) := by
    rw [round_eq]
    have hfl : ((⌊q * 100 + 1 / 2⌋ : ℤ) : ℚ) ≤ q * 100 + 1 / 2 := Int.floor_le _
    have hlt : ((⌊q * 100 + 1 / 2⌋ : ℤ) : ℚ) < ((201 : ℤ) : ℚ) := by push_cast; linarith
    exact Int.lt_add_one_iff.mp (by exact_mod_cast hlt)
  unfold round2
  constructor
  · rw [le_div_iff₀ (by norm_num : (0 : ℚ) < 100)]
    have hc : ((100 : ℤ) : ℚ) ≤ ((round (q * 100) : ℤ) : ℚ) := by exact_mod_cast hl
    push_cast at hc ⊢
    linarith
  · rw [div_le_iff₀ (by norm_num : (0 : ℚ) < 100)]
    have hc : ((round (q * 100) : ℤ) : ℚ) ≤ ((200 : ℤ) : ℚ) := by exact_mod_cast hu
    push_cast at hc ⊢
    linarith

/-- Defuzzification of pairs with non-negative strengths and output levels in
`{1, 2}` yields `0` (zero total strength) or a value in `[1, 2]`. -/
lemma defuzzification_zero_or_bounds (l : List (ℚ × ℚ))
    (hs : ∀ p ∈ l, 0 ≤ p.1) (ho : ∀ p ∈ l, p.2 = 1 ∨ p.2 = 2) :
    defuzzification l = 0 ∨ (1 ≤ defuzzification l ∧ defuzzification l ≤ 2) := by
  simp only [defuzzification]
  split_ifs with h
  · exact Or.inl rfl
  · right
    have hden0 : 0 ≤ (l.map fun r => r.1).sum := by
      refine List.sum_nonneg ?_
      intro y hy
      rw [List.mem_map] at hy
      obtain ⟨p, hp, rfl⟩ := hy
      exact hs p hp
    have hdenpos : 0 < (l.map fun r => r.1).sum := lt_of_le_of_ne hden0 (Ne.symm h)
    have hlow : (l.map fun r => r.1).sum ≤ (l.map fun r => r.1 * r.2).sum := by
      refine List.sum_le_sum ?_
      intro p hp
      rcases ho p hp with h2 | h2 <;> rw [h2] <;> nlinarith [hs p hp]
    have hhigh : (l.map fun r => r.1 * r.2).sum ≤ 2 * (l.map fun r => r.1).sum := by
      rw [← List.sum_map_mul_left]
      refine List.sum_le_sum ?_
      intro p hp
      rcases ho p hp with h2 | h2 <;> rw [h2] <;> nlinarith [hs p hp]
    refine round2_bounds _ ?_ ?_
    · rw [le_div_iff₀ hdenpos]
      linarith
    · rw [div_le_iff₀ hdenpos]
      linarith

/-! ### Claims -/

/-- C1 (counterexample): the claim that `get_z_result` returns exactly `1.0`
for the observation `ph = 0, tds = 0, water_temp = 0` is false: the scalar
membership functions return `0` at the left edge `x = a` (the `x <= a` branch
fires even on the degenerate edges `a = b` of Asam, Sangat Rendah and Dingin),
so no rule fires. -/
theorem get_z_result_origin_ne_one : get_z_result ⟨0, 0, 0⟩ ≠ 1 := by
  rw [get_z_result, fuzzy_rules_eq_map]
  norm_num [ruleList, tds_membership, ph_membership, temp_membership,
    fungsi_trapezium, fungsi_segitiga, defuzzification]

/-- C1 (amended): for the observation `ph = 0, tds = 0, water_temp = 0` the
pipeline entry point `get_z_result` returns `0`: every membership degree is
`0` at the extreme-low edge, the total firing strength is `0`, and
defuzzification takes its zero-denominator default. -/
theorem get_z_result_origin_eq_zero : get_z_result ⟨0, 0, 0⟩ = 0 := by
  rw [get_z_result, fuzzy_rules_eq_map]
  norm_num [ruleList, tds_membership, ph_membership, temp_membership,
    fungsi_trapezium, fungsi_segitiga, defuzzification]

/-- C2 (counterexample): the claim that the trapezoidal membership function
returns `1.0` at the boundary point of a degenerate zero-width rising edge
`a = b` is false: for the Sangat-Rendah parameters `[0, 0, 400, 600]` at
`x = 0` it returns `0`, because the `x <= a` branch fires first. -/
theorem fungsi_trapezium_degenerate_boundary_ne_one :
    fungsi_trapezium 0 0 0 400 600 ≠ 1 := by
  norm_num [fungsi_trapezium]

/-- C2 (amended): with a degenerate rising edge `a = b` (resp. falling edge
`c = d`) the trapezoidal membership function never divides by zero — the
zero-width edge branch is unreachable, so it behaves as a step whose boundary
point `x = a = b` (resp. `x = c = d`) falls in the surrounding `0` region,
returning `0` rather than `1.0` or NaN/infinity. -/
theorem fungsi_trapezium_degenerate_step (x a b c d : ℚ) :
    (fungsi_trapezium x a a c d =
      if x ≤ a ∨ d ≤ x then 0 else if x ≤ c then 1 else (d - x) / (d - c)) ∧
    (fungsi_trapezium x a b c c =
      if x ≤ a ∨ c ≤ x then 0 else if x ≤ b then (x - a) / (b - a) else 1) ∧
    fungsi_trapezium a a a c d = 0 ∧ fungsi_trapezium c a b c c = 0 := by
  refine ⟨?_, ?_, ?_, ?_⟩
  · by_cases h1 : x ≤ a ∨ d ≤ x
    · simp [fungsi_trapezium, h1]
    · have hxa : ¬x ≤ a := fun h => h1 (Or.inl h)
      simp [fungsi_trapezium, h1, hxa]
  · by_cases h1 : x ≤ a ∨ c ≤ x
    · simp [fungsi_trapezium, h1]
    · have hxc : x ≤ c := le_of_lt (lt_of_not_le fun h => h1 (Or.inr h))
      simp [fungsi_trapezium, h1, hxc]
  · simp [fungsi_trapezium]
  · simp [fungsi_trapezium]

/-- C3: the rule base is a fixed ordered list of exactly 36 rules, one for
each of the 4 × 3 × 3 term combinations, with output level 2 exactly at
`(TDS = Optimal, pH = Optimal, Temp = Optimal)` and level 1 everywhere
else. -/
theorem rule_base_structure :
    ruleList.length = 36 ∧
    (∀ t : TDSTerm, ∀ p : PHTerm, ∀ s : TempTerm,
      (ruleList.filter fun r => r.tds = t ∧ r.ph = p ∧ r.temp = s).length = 1) ∧
    (∀ r ∈ ruleList,
      (r.out = 2 ↔ r.tds = TDSTerm.Optimal ∧ r.ph = PHTerm.Optimal ∧
        r.temp = TempTerm.Optimal) ∧ (r.out = 1 ∨ r.out = 2)) := by
  decide

/-- C3 (witness): the level-2 rule is in the table and satisfies the
per-rule property. -/
theorem rule_base_structure_witness :
    ((⟨.Optimal, .Optimal, .Optimal, 2⟩ : Rule) ∈ ruleList) ∧
    (((⟨.Optimal, .Optimal, .Optimal, 2⟩ : Rule).out = 2 ↔
      (⟨.Optimal, .Optimal, .Optimal, 2⟩ : Rule).tds = TDSTerm.Optimal ∧
      (⟨.Optimal, .Optimal, .Optimal, 2⟩ : Rule).ph = PHTerm.Optimal ∧
      (⟨.Optimal, .Optimal, .Optimal, 2⟩ : Rule).temp = TempTerm.Optimal) ∧
     ((⟨.Optimal, .Optimal, .Optimal, 2⟩ : Rule).out = 1 ∨
      (⟨.Optimal, .Optimal, .Optimal, 2⟩ : Rule).out = 2)) :=
  ⟨by decide, rule_base_structure.2.2 ⟨.Optimal, .Optimal, .Optimal, 2⟩ (by decide)⟩

/-- C4: for every triple of membership-degree mappings, `fuzzy_rules`
computes for every rule the firing strength
`min(TDS_degree * 0.6, pH_degree * 0.2, Temp_degree * 0.2)` — the same fixed
weights for all 36 rules — paired with the rule's output level. -/
theorem fuzzy_rules_weighted_min (x1 : TDSTerm → ℚ) (x2 : PHTerm → ℚ)
    (x3 : TempTerm → ℚ) :
    fuzzy_rules x1 x2 x3 = ruleList.map fun r =>
      (min (min (x1 r.tds * 0.6) (x2 r.ph * 0.2)) (x3 r.temp * 0.2), (r.out : ℚ)) :=
  fuzzy_rules_eq_map x1 x2 x3

/-- C5: on a non-empty list of `(firing_strength, output)` pairs,
`defuzzification` returns the weighted average rounded to two decimals, and
returns `0` instead of failing whenever the total strength is exactly `0`. -/
theorem defuzzification_weighted_average (rules : List (ℚ × ℚ))
    (h : rules ≠ []) :
    ((rules.map fun r => r.1).sum = 0 → defuzzification rules = 0) ∧
    ((rules.map fun r => r.1).sum ≠ 0 →
      defuzzification rules =
        round2 ((rules.map fun r => r.1 * r.2).sum / (rules.map fun r => r.1).sum)) := by
  constructor <;> intro hd <;> simp [defuzzification, hd]

/-- C5 (witness): the contract applied to the singleton list
`[(1/2, 1)]`, whose total strength is non-zero. -/
theorem defuzzification_weighted_average_witness :
    (([((1 : ℚ)/2, 1)] : List (ℚ × ℚ)) ≠ []) ∧
    defuzzification [((1 : ℚ)/2, 1)] =
      round2 ((([((1 : ℚ)/2, 1)] : List (ℚ × ℚ)).map fun r => r.1 * r.2).sum /
        (([((1 : ℚ)/2, 1)] : List (ℚ × ℚ)).map fun r => r.1).sum) :=
  ⟨by simp,
   (defuzzification_weighted_average [((1 : ℚ)/2, 1)] (by simp)).2 (by norm_num)⟩

/-- C6: for the optimal-centred observation `ph = 7, tds = 1200,
water_temp = 27` the pipeline returns at least `1.8` (it returns exactly
`2`): only the single level-2 rule fires, with strength `0.2`. -/
theorem get_z_result_optimal_ge : (1.8 : ℚ) ≤ get_z_result ⟨1200, 7, 27⟩ := by
  have h : get_z_result ⟨1200, 7, 27⟩ = 2 := by
    rw [get_z_result, fuzzy_rules_eq_map]
    norm_num [ruleList, tds_membership, ph_membership, temp_membership,
      fungsi_trapezium, fungsi_segitiga, defuzzification, round2, round_eq,
      Int.floor_eq_iff]
  rw [h]
  norm_num

/-- C7 (counterexample): the claim that for `a ≤ b ≤ c ≤ d` the trapezoidal
membership is `1` on all of `[b, c]` fails at degenerate edges: for the Basa
parameters `[7, 8, 14, 14]` the point `x = 14` lies in `[b, c] = [8, 14]` but
the function returns `0` (the `x >= d` branch fires). -/
theorem fungsi_trapezium_plateau_cex :
    (7 : ℚ) ≤ 8 ∧ (8 : ℚ) ≤ 14 ∧ (14 : ℚ) ≤ 14 ∧ (8 : ℚ) ≤ 14 ∧ (14 : ℚ) ≤ 14 ∧
    fungsi_trapezium 14 7 8 14 14 ≠ 1 := by
  norm_num [fungsi_trapezium]

/-- C7 (amended): for every trapezoidal parameter list with `a ≤ b ≤ c ≤ d`,
the membership is `0` at `x = a` and at `x = d`, and is `1` at every
`x ∈ [b, c]` that lies strictly between `a` and `d`. -/
theorem fungsi_trapezium_plateau (a b c d : ℚ)
    (hab : a ≤ b) (hbc : b ≤ c) (hcd : c ≤ d) :
    fungsi_trapezium a a b c d = 0 ∧ fungsi_trapezium d a b c d = 0 ∧
    ∀ x : ℚ, b ≤ x → x ≤ c → a < x → x < d → fungsi_trapezium x a b c d = 1 := by
  refine ⟨by simp [fungsi_trapezium], by simp [fungsi_trapezium], ?_⟩
  intro x hbx hxc hax hxd
  unfold fungsi_trapezium
  rw [if_neg (by push_neg; exact ⟨hax, hxd⟩)]
  by_cases hxb : x ≤ b
  · rw [if_pos hxb]
    have hxb' : x = b := le_antisymm hxb hbx
    have hba : b - a ≠ 0 := by
      have hab' : a < b := lt_of_lt_of_le hax hxb
      intro h0
      rw [sub_eq_zero] at h0
      exact absurd h0.symm (ne_of_lt hab')
    rw [hxb', div_self hba]
  · rw [if_neg hxb, if_pos hxc]

/-- C7 (witness): the amended plateau property at the parameters
`[0, 1, 2, 3]` and the interior plateau point `x = 3/2`. -/
theorem fungsi_trapezium_plateau_witness :
    (0 : ℚ) ≤ 1 ∧ (1 : ℚ) ≤ 2 ∧ (2 : ℚ) ≤ 3 ∧
    fungsi_trapezium 0 0 1 2 3 = 0 ∧ fungsi_trapezium 3 0 1 2 3 = 0 ∧
    fungsi_trapezium (3/2) 0 1 2 3 = 1 := by
  have h := fungsi_trapezium_plateau 0 1 2 3 (by norm_num) (by norm_num) (by norm_num)
  exact ⟨by norm_num, by norm_num, by norm_num, h.1, h.2.1,
    h.2.2 (3/2) (by norm_num) (by norm_num) (by norm_num) (by norm_num)⟩

/-- C8: for every input `x` and valid parameters (`a ≤ b ≤ c` triangular,
`a ≤ b ≤ c ≤ d` trapezoidal), both scalar membership functions return a
degree in the closed interval `[0, 1]`. -/
theorem membership_functions_unit_interval (x a b c d : ℚ)
    (hab : a ≤ b) (hbc : b ≤ c) (hcd : c ≤ d) :
    (0 ≤ fungsi_segitiga x a b c ∧ fungsi_segitiga x a b c ≤ 1) ∧
    (0 ≤ fungsi_trapezium x a b c d ∧ fungsi_trapezium x a b c d ≤ 1) :=
  ⟨fungsi_segitiga_mem x a b c, fungsi_trapezium_mem x a b c d⟩

/-- C8 (witness): the unit-interval bound at `x = 3/2` with parameters
`[0, 1, 2]` and `[0, 1, 2, 3]`. -/
theorem membership_functions_unit_interval_witness :
    (0 : ℚ) ≤ 1 ∧ (1 : ℚ) ≤ 2 ∧ (2 : ℚ) ≤ 3 ∧
    ((0 ≤ fungsi_segitiga (3/2) 0 1 2 ∧ fungsi_segitiga (3/2) 0 1 2 ≤ 1) ∧
     (0 ≤ fungsi_trapezium (3/2) 0 1 2 3 ∧ fungsi_trapezium (3/2) 0 1 2 3 ≤ 1)) :=
  ⟨by norm_num, by norm_num, by norm_num,
   membership_functions_unit_interval (3/2) 0 1 2 3 (by norm_num) (by norm_num)
     (by norm_num)⟩

/-- C9: the categorical evaluator on the three rows
`(Optimal, Optimal), (Normal, Normal), (Optimal, Normal)` yields the
confusion matrix `TP = 1, TN = 1, FP = 0, FN = 1` with accuracy `2/3`,
precision `1` and recall `1/2`. -/
theorem categorical_evaluation_example :
    perform_categorical_evaluation
      [("Optimal".toList, "Optimal".toList), ("Normal".toList, "Normal".toList),
       ("Optimal".toList, "Normal".toList)] =
    some ((⟨1, 1, 0, 1⟩ : ConfusionMatrix), (⟨2/3, 1, 1/2⟩ : EvalMetrics)) := by
  have hcm :
      ([("Optimal".toList, "Optimal".toList), ("Normal".toList, "Normal".toList),
        ("Optimal".toList, "Normal".toList)]).foldl count_row ⟨0, 0, 0, 0⟩ =
      (⟨1, 1, 0, 1⟩ : ConfusionMatrix) := by decide
  simp only [perform_categorical_evaluation, hcm]
  norm_num

/-- C10: for every observation, the crisp score of `get_z_result` is either
exactly `0` (no rule fires) or lies in `[1, 2]`: it is a weighted average of
output levels in `{1, 2}` with non-negative weights, and rounding to two
decimals preserves the interval. -/
theorem get_z_result_zero_or_unit_range (ph tds w : ℚ) :
    get_z_result ⟨tds, ph, w⟩ = 0 ∨
      (1 ≤ get_z_result ⟨tds, ph, w⟩ ∧ get_z_result ⟨tds, ph, w⟩ ≤ 2) := by
  have hout : ∀ r ∈ ruleList, r.out = 1 ∨ r.out = 2 := by decide
  rw [get_z_result]
  refine defuzzification_zero_or_bounds _ ?_ ?_
  · intro p hp
    rw [fuzzy_rules_eq_map, List.mem_map] at hp
    obtain ⟨r, hr, rfl⟩ := hp
    dsimp only
    refine le_min (le_min ?_ ?_) ?_
    · exact mul_nonneg (tds_membership_nonneg _ _) (by norm_num)
    · exact mul_nonneg (ph_membership_nonneg _ _) (by norm_num)
    · exact mul_nonneg (temp_membership_nonneg _ _) (by norm_num)
  · intro p hp
    rw [fuzzy_rules_eq_map, List.mem_map] at hp
    obtain ⟨r, hr, rfl⟩ := hp
    dsimp only
    rcases hout r hr with h | h
    · left
      rw [h]
      norm_num
    · right
      rw [h]
      norm_num
